import Mathlib

/-!
Verification of the pystr struct library: a shallow embedding of the
layout compiler (`pystr/struct.py`), the integer / bit-range accessors
(`pystr/int_field.py` together with the C macros generated in `build.py`),
the string accessors (`pystr/str_field.py`), and the decode dispatcher
(`pystr/decodable.py`), with theorems checking the documented behaviour.

Buffers are modelled as `List Nat`, one `Nat` per byte.  The cffi buffer
only ever holds values `< 256`; writes of full bytes go through cffi
item assignment (which rejects out-of-range values, so callers only pass
bytes), while the C helpers truncate through `uint8_t` assignment, which
is modelled by `% 2 ^ 8`.
-/

/-- C bitwise complement `~x` of a nonnegative 32-bit int value,
viewed as an unsigned 32-bit number. -/
def cNot32 (x : Nat) : Nat := (2 ^ 32 - 1) ^^^ x

/-- The C macro `mask(msb, lsb) = (((1 << (msb + 1)) - 1) & ~((1 << lsb) - 1))`
from `build.py`.  The C source computes the shifts in (32-bit) `int`, so
this unbounded transcription is faithful only for `msb < 31`; for larger
`msb` (possible on 32- and 64-bit fields, which `int_field.py` does not
validate against) the C arithmetic overflows `int` and has no defined
value to embed — every theorem about wider bit ranges below therefore
carries an `msb < 31` bound. -/
def cMask (msb lsb : Nat) : Nat := (2 ^ (msb + 1) - 1) &&& cNot32 (2 ^ lsb - 1)

/-- Read the byte at `off` (C pointer indexing `ptr[off]`). -/
def bufGet (buf : List Nat) (off : Nat) : Nat := buf.getD off 0

/-- Store one byte at `off` (`ptr[off] = v`); callers keep `v < 256`. -/
def bufByteStore (buf : List Nat) (off v : Nat) : List Nat := buf.set off v

/-- `IntField._init_sb` getter for `bit=None`: `field_type(struct.buffer[offset])`,
the integral part being the raw byte. -/
def get_field8 (buf : List Nat) (off : Nat) : Nat := bufGet buf off

/-- `IntField._init_sb` setter for `bit=None`: `struct.buffer[offset] = int(val)`.
cffi rejects values outside `0..255`, so this is only invoked with `v < 256`. -/
def set_field8 (buf : List Nat) (off v : Nat) : List Nat := bufByteStore buf off v

/-- The C macro `get_field8_partial(ptr, offset, msb, lsb)` from `build.py`:
`((ptr[offset] & ((1 << (msb + 1)) - 1)) >> lsb)`. -/
def get_field8_bitrange (buf : List Nat) (off msb lsb : Nat) : Nat :=
  (bufGet buf off &&& (2 ^ (msb + 1) - 1)) >>> lsb

/-- The C macro `set_field8_partial(ptr, value, offset, msb, lsb)` from `build.py`:
`ptr[offset] = (ptr[offset] & ~mask(msb, lsb)) | ((value << lsb) & ((1 << (msb + 1)) - 1))`,
the assignment to `uint8_t` truncating modulo `2 ^ 8`. -/
def set_field8_bitrange (buf : List Nat) (value off msb lsb : Nat) : List Nat :=
  bufByteStore buf off
    (((bufGet buf off &&& cNot32 (cMask msb lsb)) |||
      ((value <<< lsb) &&& (2 ^ (msb + 1) - 1))) % 2 ^ 8)

/-- `get_le_fieldW(ptr, offset)` for `W = 8 * n` bits: assemble `n` bytes at
`offset`, least significant byte first (byte-swap to host order folded in). -/
def readLE (buf : List Nat) (off : Nat) : Nat → Nat
  | 0 => 0
  | n + 1 => bufGet buf off + 256 * readLE buf (off + 1) n

/-- `set_le_fieldW(ptr, value, offset)` for `W = 8 * n` bits: store `n` bytes at
`offset`, least significant byte first. -/
def writeLE (buf : List Nat) (off : Nat) : Nat → Nat → List Nat
  | 0, _ => buf
  | n + 1, v => writeLE (bufByteStore buf off (v % 256)) (off + 1) n (v / 256)

/-- `get_be_fieldW(ptr, offset)` for `W = 8 * n` bits: assemble `n` bytes at
`offset`, most significant byte first. -/
def readBE (buf : List Nat) (off : Nat) : Nat → Nat
  | 0 => 0
  | n + 1 => bufGet buf off * 256 ^ n + readBE buf (off + 1) n

/-- `set_be_fieldW(ptr, value, offset)` for `W = 8 * n` bits: store `n` bytes at
`offset`, most significant byte first. -/
def writeBE (buf : List Nat) (off : Nat) : Nat → Nat → List Nat
  | 0, _ => buf
  | n + 1, v => writeBE (bufByteStore buf off (v / 256 ^ n % 256)) (off + 1) n (v % 256 ^ n)

/-- C bitwise complement `~x` of a nonnegative int value after the usual
arithmetic conversions to an unsigned `w`-bit operand (for `w ≥ 32` the
negative int `~x` is sign-extended, giving ones above bit 31; for `w < 32`
the surplus high bits are discarded by the final `uintW` store, so a single
`w`-bit complement models every width the library generates). -/
def cNotW (w x : Nat) : Nat := (2 ^ w - 1) ^^^ x

/-- The C macro `get_{ed}_fieldW_partial(ptr, offset, msb, lsb)` from `build.py`
for a little-endian field of `n` bytes:
`(get_le_fieldW(ptr, offset) & ((1 << (msb + 1)) - 1)) >> lsb`. -/
def get_le_field_bitrange (buf : List Nat) (off n msb lsb : Nat) : Nat :=
  (readLE buf off n &&& (2 ^ (msb + 1) - 1)) >>> lsb

/-- The C macro `set_{ed}_fieldW_partial(ptr, value, offset, msb, lsb)` from
`build.py` for a little-endian field of `n` bytes: store
`(get(ptr, offset) & ~mask(msb, lsb)) | ((value << lsb) & ((1 << (msb + 1)) - 1))`. -/
def set_le_field_bitrange (buf : List Nat) (value off n msb lsb : Nat) : List Nat :=
  writeLE buf off n
    ((readLE buf off n &&& cNotW (8 * n) (cMask msb lsb)) |||
      ((value <<< lsb) &&& (2 ^ (msb + 1) - 1)))

/-- Big-endian variant of `get_le_field_bitrange`. -/
def get_be_field_bitrange (buf : List Nat) (off n msb lsb : Nat) : Nat :=
  (readBE buf off n &&& (2 ^ (msb + 1) - 1)) >>> lsb

/-- Big-endian variant of `set_le_field_bitrange`. -/
def set_be_field_bitrange (buf : List Nat) (value off n msb lsb : Nat) : List Nat :=
  writeBE buf off n
    ((readBE buf off n &&& cNotW (8 * n) (cMask msb lsb)) |||
      ((value <<< lsb) &&& (2 ^ (msb + 1) - 1)))

/-- Read `n` bytes starting at `off`: the slice `buffer[off : off + n]`
(in-range for every compiled access, `off + n ≤ size`). -/
def bufReadRange (buf : List Nat) (off : Nat) : Nat → List Nat
  | 0 => []
  | n + 1 => bufGet buf off :: bufReadRange buf (off + 1) n

/-- Slice assignment `buffer[off : off + len(bs)] = bs`. -/
def bufStoreRange (buf : List Nat) (off : Nat) : List Nat → List Nat
  | [] => buf
  | b :: bs => bufStoreRange (bufByteStore buf off b) (off + 1) bs

/-- Python `ord(s)`: the code point of a one-character string, a `TypeError`
(modelled as `none`) otherwise. -/
def pyOrd (s : List Char) : Option Nat :=
  match s with
  | [c] => some c.toNat
  | _ => none

/-- Does `s` begin with `sep`? (used by `str.split`). -/
def strStarts : List Char → List Char → Bool
  | [], _ => true
  | _ :: _, [] => false
  | a :: as, b :: bs => a = b && strStarts as bs

/-- The first component of Python `s.split(sep, 1)` for a non-empty `sep`:
the characters before the first occurrence of `sep` as a contiguous
substring (all of `s` when `sep` does not occur). -/
def splitFirst (sep : List Char) : List Char → List Char
  | [] => []
  | c :: rest => if strStarts sep (c :: rest) then [] else c :: splitFirst sep rest

/-- The `StrField` getter from `str_field.py`:
`bytes(buffer[offset : offset + size]).decode(encoding, errors="replace")`,
then `ret, *_ = ret.split(terminator, 1)` when `terminator` is non-empty.
The decoder `dec` (which never fails: invalid sequences become replacement
characters) stands for the configured codec. -/
def strFieldGet (dec : List Nat → List Char) (off size : Nat) (terminator : List Char)
    (buf : List Nat) : List Char :=
  let ret := dec (bufReadRange buf off size)
  if terminator.isEmpty then ret else splitFirst terminator ret

/-- The `StrField` setter from `str_field.py`:
`val_ = str(val).encode(encoding)[:size]`, then
`val_ += bytes(ord(terminator) % 256 for _ in range(size - len(val_)))`, then
`buffer[offset : offset + size] = val_`.  `ord` is only evaluated when at
least one padding byte is produced; on a terminator that is not exactly one
character it raises `TypeError`, modelled as `none`. -/
def strFieldSet (enc : List Char → List Nat) (off size : Nat) (terminator : List Char)
    (buf : List Nat) (val : List Char) : Option (List Nat) :=
  let v := (enc val).take size
  let pad := size - v.length
  if pad = 0 then some (bufStoreRange buf off v)
  else
    match pyOrd terminator with
    | none => none
    | some b => some (bufStoreRange buf off (v ++ List.replicate pad (b % 256)))

/-- A Python class object as consumed by the layout compiler's
accessor-generator lookup: its name together with its method resolution
order (the list of ancestor class names, itself first, `object` last). -/
structure PyType where
  name : String
  mro : List String
deriving DecidableEq

/-- `issubclass(a, b)`: `b` occurs in `a`'s method resolution order. -/
def pyIssubclass (a b : PyType) : Bool := b.name ∈ a.mro

/-- The key order used by `Struct._create_fields`:
`sorted(..., key=lambda elem: len(elem[0].mro()))`. -/
def keyLe (key : α → Nat) (a b : α) : Prop := key a ≤ key b

instance (key : α → Nat) : DecidableRel (keyLe key) := fun a b => Nat.decLe (key a) (key b)

instance (key : α → Nat) : IsTotal α (keyLe key) := ⟨fun a b => Nat.le_total (key a) (key b)⟩

instance (key : α → Nat) : IsTrans α (keyLe key) := ⟨fun _ _ _ => Nat.le_trans⟩

/-- Python `sorted(l, key=key)`: a stable sort ascending by `key`. -/
def pySorted (key : α → Nat) (l : List α) : List α := List.insertionSort (keyLe key) l

/-- Stable sort descending by `key` (most-derived-first candidate order, as
the specification describes it); only used to compare against the source's
ascending order. -/
def pySortedDesc (key : α → Nat) (l : List α) : List α :=
  List.insertionSort (fun a b => key b ≤ key a) l

/-- `Struct._create_fields` accessor-generator selection for one declared
field with annotation `atype`:
`f2p_map = sorted(cls._field_map.items(), key=lambda elem: len(elem[0].mro()))`,
then the first `(field_type, prop_type)` pair with
`issubclass(atype, field_type)` wins; when none matches the loop's `else`
raises `ValueError("... is not registered")`, modelled as `none`. -/
def selectFieldProp (fieldMap : List (PyType × String)) (atype : PyType) : Option String :=
  ((pySorted (fun p => p.1.mro.length) fieldMap).find?
    (fun p => pyIssubclass atype p.1)).map (fun p => p.2)

/-- The selection rule as the specification words it (refinement comparison
only): candidates ordered most-derived-first by inheritance distance,
first supertype of the annotation wins. -/
def selectFieldPropSpec (fieldMap : List (PyType × String)) (atype : PyType) : Option String :=
  ((pySortedDesc (fun p => p.1.mro.length) fieldMap).find?
    (fun p => pyIssubclass atype p.1)).map (fun p => p.2)

/-- `min_size` in `Struct._create_fields`: the running
`min_size = max(min_size, prop._end_of_field)` over the class's own newly
declared fields, each contributing its offset plus occupied width in
bytes (`_end_of_field`), starting from 0. -/
def minSizeOf (ends : List Nat) : Nat := ends.foldr max 0

/-- The size bookkeeping at the end of `Struct._create_fields`:
`if size is not None: cls._size_ = size`, then
`if cls._size_ == 0: cls._size_ = min_size`, then
`if cls._size_ < min_size: raise ValueError(...)` (modelled as `none`).
`inherited` is the `_size_` the class inherits (0 for a direct subclass
of `Struct`). -/
def createFieldsSize (inherited : Nat) (declared : Option Nat) (minSize : Nat) : Option Nat :=
  let s1 := match declared with
    | some s => s
    | none => inherited
  let s2 := if s1 = 0 then minSize else s1
  if s2 < minSize then none else some s2

/-- One `"{}={}".format(k, repr(getattr(self, k)))` component of
`Struct.__repr__`. -/
def reprComponent (vals : String → String) (k : String) : String := k ++ "=" ++ vals k

/-- Python `", ".join(parts)`. -/
def joinComma : List String → String
  | [] => ""
  | [s] => s
  | s :: rest => s ++ ", " ++ joinComma rest

/-- `Struct.__repr__`: `"{}({})".format(type(self).__name__, ", ".join(...))`.
The components iterate `self._fields_`, a Python `set`; `iter` stands for
the enumeration order the set iterator happens to produce. -/
def pyRepr (tyName : String) (iter : List String) (vals : String → String) : String :=
  tyName ++ "(" ++ joinComma (iter.map (reprComponent vals)) ++ ")"

/-- `iter` is a possible enumeration of the set
`{k for c in cls.mro() for k in c._fields_}` built by
`Struct.__init_subclass__`: each element exactly once, membership exactly
the union of the per-class field-name collections `mros`. -/
def isEnumOf (iter : List String) (mros : List (List String)) : Prop :=
  iter.Nodup ∧ ∀ k, k ∈ iter ↔ ∃ fs ∈ mros, k ∈ fs

/-- A canonical enumeration of the same set, for comparison. -/
def collectFields (mros : List (List String)) : List String :=
  (mros.foldr (fun fs acc => fs ++ acc) []).dedup

/-- The mutable class-level state built by `Decodable.__init_subclass__`.
`heap` holds the Python list objects that the classes' `_decode_map`
attributes alias (index 0 is `Decodable._decode_map`, the module-level
list, initially empty); `refOf` maps a class id to the heap index its
`_decode_map` attribute resolves to — a class that never rebinds the
attribute resolves to its parent's entry. -/
structure DecRegistry where
  heap : List (List (List (String × Nat) × Nat))
  refOf : List (Nat × Nat)
deriving DecidableEq

/-- The registry holding only `Decodable` itself (class id 0). -/
def decRegistry0 : DecRegistry := ⟨[[]], [(0, 0)]⟩

/-- The heap index class `cid`'s `_decode_map` attribute resolves to. -/
def refLookup (st : DecRegistry) (cid : Nat) : Nat := (st.refOf.lookup cid).getD 0

/-- The decode-map list object at heap index `r`. -/
def heapAt (st : DecRegistry) (r : Nat) : List (List (String × Nat) × Nat) :=
  st.heap.getD r []

/-- `Decodable.__init_subclass__` for a new class `cid` with base `parent`:
`if cls._initial: cls._decode_map.append((cls._initial, cls)); cls._decode_map = []`.
The `append` mutates the list object the inherited attribute aliases; the
rebinding then gives the class a fresh empty list of its own.  A class
whose `_initial` is empty is left sharing its parent's list object. -/
def declareDecodable (st : DecRegistry) (cid parent : Nat)
    (initial : List (String × Nat)) : DecRegistry :=
  let pref := refLookup st parent
  if initial.isEmpty then
    ⟨st.heap, (cid, pref) :: st.refOf⟩
  else
    ⟨st.heap.set pref (heapAt st pref ++ [(initial, cid)]) ++ [[]],
     (cid, st.heap.length) :: st.refOf⟩

/-- `all(getattr(self, k) == v for k, v in cond.items())` for an instance
whose fields are full-byte integer fields laid out by `layout`
(field name to byte offset). -/
def condHolds (layout : List (String × Nat)) (buf : List Nat)
    (cond : List (String × Nat)) : Bool :=
  cond.all (fun kv =>
    match layout.lookup kv.1 with
    | some off => bufGet buf off == kv.2
    | none => false)

/-- The `while True` loop of `Decodable.decode`: scan the current decode
map from most-recently-registered to least (`reversed(dmap)`); on the
first candidate whose signature holds, descend into that class's own
decode map; when none matches return the last matched class (`ret_tp`).
`fuel` bounds the walk (any value at least the class count is enough, the
registration graph being acyclic). -/
def decodeLoop (st : DecRegistry) (layout : List (String × Nat)) (buf : List Nat) :
    Nat → List (List (String × Nat) × Nat) → Nat → Nat
  | 0, _, ret => ret
  | fuel + 1, dmap, ret =>
    match dmap.reverse.find? (fun e => condHolds layout buf e.1) with
    | none => ret
    | some e => decodeLoop st layout buf fuel (heapAt st (refLookup st e.2)) e.2

/-- `Decodable.decode` up to the choice of result type: start from
`self._decode_map` with `ret_tp = type(self)`. -/
def decodeResolve (st : DecRegistry) (layout : List (String × Nat))
    (cid : Nat) (buf : List Nat) (fuel : Nat) : Nat :=
  decodeLoop st layout buf fuel (heapAt st (refLookup st cid)) cid

/-- The class table: index = class id, entry = (parent id, `_initial`).
Entry 0 is `Decodable` itself. -/
def classesGet (classes : List (Nat × List (String × Nat))) (cid : Nat) :
    Nat × List (String × Nat) :=
  classes.getD cid (0, [])

/-- `type.mro()` restricted to the `Decodable` chain: the class, its
parent, and so on down to class 0. -/
def mroIds (classes : List (Nat × List (String × Nat))) : Nat → Nat → List Nat
  | 0, cid => [cid]
  | fuel + 1, cid =>
    if cid = 0 then [0] else cid :: mroIds classes fuel (classesGet classes cid).1

/-- The initial-value application in `Struct.__init__`: for each class of
`reversed(type(self).mro())` (ancestor to descendant), write each
`(field, value)` of its `_initial` through the field's setter into the
buffer — also when the instance merely aliases an existing buffer
(`ref=...`).  A name not in the layout would become a plain attribute and
leaves the buffer alone. -/
def applyInitials (layout : List (String × Nat)) (buf : List Nat)
    (inits : List (List (String × Nat))) : List Nat :=
  inits.foldl (fun b ini =>
    ini.foldl (fun b' kv =>
      match layout.lookup kv.1 with
      | some off => set_field8 b' off kv.2
      | none => b') b) buf

/-- `Decodable.decode` in full:
`return self if ret_tp is type(self) else ret_tp(ref=self.buffer)`.
The result is (resolved class id, buffer contents after construction,
whether the original instance object itself was returned).  Constructing
`ret_tp(ref=self.buffer)` aliases the same buffer and re-applies every
`_initial` of the resolved class's ancestry through `Struct.__init__`. -/
def decodeFull (st : DecRegistry) (classes : List (Nat × List (String × Nat)))
    (layout : List (String × Nat)) (cid : Nat) (buf : List Nat) (fuel : Nat) :
    Nat × List Nat × Bool :=
  let rid := decodeResolve st layout cid buf fuel
  if rid = cid then (cid, buf, true)
  else (rid, applyInitials layout buf ((mroIds classes fuel rid).reverse.map
    (fun c => (classesGet classes c).2)), false)

/-- The A/B/C decode scenario: schema A (id 1, no literal values), its
descendant B (id 2) with signature `{opcode = 1}`, B's descendant C (id 3)
with signature `{fua = 1}`; `opcode` is the byte at offset 0 and `fua` the
byte at offset 1. -/
def layoutABC : List (String × Nat) := [("opcode", 0), ("fua", 1)]

/-- Class table of the A/B/C scenario. -/
def classesABC : List (Nat × List (String × Nat)) :=
  [(0, []), (0, []), (1, [("opcode", 1)]), (2, [("fua", 1)])]

/-- Registry after declaring A, then B, then C. -/
def registryABC : DecRegistry :=
  declareDecodable
    (declareDecodable (declareDecodable decRegistry0 1 0 []) 2 1 [("opcode", 1)])
    3 2 [("fua", 1)]

/-- Registry with two siblings X (id 1) and Y (id 2) registered directly
under `Decodable`, both with the same signature `{a = 1}` (Y declared
later); `a` is the byte at offset 0. -/
def registryXY : DecRegistry :=
  declareDecodable (declareDecodable decRegistry0 1 0 [("a", 1)]) 2 0 [("a", 1)]

/-- Registry for the signature-forest shape: A (id 1) declared with no
literal field values, then its sibling D (id 2) with signature `{y = 2}`,
both direct subclasses of `Decodable`. -/
def registryAD : DecRegistry :=
  declareDecodable (declareDecodable decRegistry0 1 0 []) 2 0 [("y", 2)]

/-- Class table matching `registryAD`. -/
def classesAD : List (Nat × List (String × Nat)) := [(0, []), (0, []), (0, [("y", 2)])]

/-- Registry for decoding from the middle of a signature chain: B (id 1)
with signature `{opcode = 1}` under `Decodable`, C (id 2) with signature
`{fua = 1}` under B. -/
def registryBC : DecRegistry :=
  declareDecodable (declareDecodable decRegistry0 1 0 [("opcode", 1)]) 2 1 [("fua", 1)]

/-- Class table matching `registryBC`. -/
def classesBC : List (Nat × List (String × Nat)) :=
  [(0, []), (0, [("opcode", 1)]), (1, [("fua", 1)])]

/-- The registered accessor generators in registration order
(`struct.py` registers `Struct ↦ StructField` at import, then
`int_field.py` registers `int ↦ IntField` and `str_field.py` registers
`str ↦ StrField`), extended by one further user registration
`bool ↦ BoolField` through the public `Struct.register_field`. -/
def fieldMapEx : List (PyType × String) :=
  [(⟨"Struct", ["Struct", "object"]⟩, "StructField"),
   (⟨"int", ["int", "object"]⟩, "IntField"),
   (⟨"str", ["str", "object"]⟩, "StrField"),
   (⟨"bool", ["bool", "int", "object"]⟩, "BoolField")]

/-- The `bool` annotation (a subclass of `int`). -/
def boolTy : PyType := ⟨"bool", ["bool", "int", "object"]⟩

/-- An ASCII-style character-wise encoder (`str.encode`). -/
def asciiEnc : List Char → List Nat := List.map Char.toNat

/-- An ASCII-style decoder with `errors="replace"`: bytes outside the
ASCII range become the replacement character. -/
def asciiDec : List Nat → List Char :=
  List.map (fun b => if b < 128 then Char.ofNat b else '�')

/-- Modelled from the spec (and from the `terminator` docstring in
`str_field.py`, "string cut at character which is specified by any
character in terminator"): truncate the decoded text at the first
character that is a member of the terminator set. -/
def truncAtTerminatorSet (terminator : List Char) (s : List Char) : List Char :=
  s.takeWhile (fun c => !terminator.contains c)

/-- The buffer already holds a class-level initial value `kv`: the field is
in the layout, in range, and reads back exactly `kv`'s value. -/
def initialHeld (layout : List (String × Nat)) (buf : List Nat)
    (kv : String × Nat) : Bool :=
  match layout.lookup kv.1 with
  | some off => decide (off < buf.length) && (bufGet buf off == kv.2)
  | none => false

-- ===== end of definitions =====

theorem bufGet_bufByteStore_self (buf : List Nat) (off v : Nat) (h : off < buf.length) :
    bufGet (bufByteStore buf off v) off = v := by
  simp [bufGet, bufByteStore, List.getD, List.getElem?_set, h]

theorem bufGet_bufByteStore_ne (buf : List Nat) (off off' v : Nat) (h : off ≠ off') :
    bufGet (bufByteStore buf off v) off' = bufGet buf off' := by
  simp [bufGet, bufByteStore, List.getD, List.getElem?_set, h]

theorem length_bufByteStore (buf : List Nat) (off v : Nat) :
    (bufByteStore buf off v).length = buf.length := by
  simp [bufByteStore]

theorem testBit_cMask (msb lsb i : Nat) (h : msb < 31) :
    (cMask msb lsb).testBit i = (decide (lsb ≤ i) && decide (i ≤ msb)) := by
  simp only [cMask, cNot32, Nat.testBit_land, Nat.testBit_xor, Nat.testBit_two_pow_sub_one]
  by_cases h1 : i ≤ msb
  · have h2 : i < msb + 1 := by omega
    have h3 : i < 32 := by omega
    by_cases h4 : i < lsb <;> simp [h1, h2, h3, h4] <;> omega
  · have h2 : ¬ (i < msb + 1) := by omega
    simp [h1, h2]

theorem get_set_field8 (buf : List Nat) (off v : Nat) (h : off < buf.length) :
    get_field8 (set_field8 buf off v) off = v :=
  bufGet_bufByteStore_self buf off v h

theorem get_set_field8_bitrange (buf : List Nat) (off msb lsb v : Nat)
    (hml : lsb ≤ msb) (hm : msb < 8) (hv : v < 2 ^ (msb - lsb + 1)) (ho : off < buf.length) :
    get_field8_bitrange (set_field8_bitrange buf v off msb lsb) off msb lsb = v := by
  unfold get_field8_bitrange set_field8_bitrange
  rw [bufGet_bufByteStore_self _ _ _ ho]
  apply Nat.eq_of_testBit_eq
  intro i
  simp only [Nat.testBit_shiftRight, Nat.testBit_land, Nat.testBit_mod_two_pow,
    Nat.testBit_lor, Nat.testBit_shiftLeft, Nat.testBit_two_pow_sub_one,
    testBit_cMask _ _ _ (by omega : msb < 31), cNot32, Nat.testBit_xor]
  by_cases hi : lsb + i ≤ msb
  · have h1 : lsb + i < msb + 1 := by omega
    simp [h1, show lsb + i < 8 by omega, show lsb ≤ lsb + i by omega,
      show lsb + i < 32 by omega, show lsb + i - lsb = i by omega, hi]
  · have h1 : ¬ (lsb + i < msb + 1) := by omega
    have hvb : v.testBit i = false :=
      Nat.testBit_lt_two_pow
        (lt_of_lt_of_le hv (Nat.pow_le_pow_right (by norm_num) (by omega)))
    simp [h1, hvb]

theorem writeLE_bufGet_lt (buf : List Nat) (off n v i : Nat) (h : i < off) :
    bufGet (writeLE buf off n v) i = bufGet buf i := by
  induction n generalizing buf off v with
  | zero => rfl
  | succ n ih =>
    rw [writeLE, ih _ _ _ (by omega)]
    exact bufGet_bufByteStore_ne _ _ _ _ (by omega)

theorem writeLE_length (buf : List Nat) (off n v : Nat) :
    (writeLE buf off n v).length = buf.length := by
  induction n generalizing buf off v with
  | zero => rfl
  | succ n ih => rw [writeLE, ih, length_bufByteStore]

theorem readLE_writeLE (buf : List Nat) (off n v : Nat)
    (hv : v < 256 ^ n) (hb : off + n ≤ buf.length) :
    readLE (writeLE buf off n v) off n = v := by
  induction n generalizing buf off v with
  | zero => simp [readLE, writeLE] at hv ⊢; omega
  | succ n ih =>
    rw [writeLE, readLE]
    rw [writeLE_bufGet_lt _ _ _ _ _ (by omega),
      bufGet_bufByteStore_self _ _ _ (by omega)]
    rw [ih _ _ _ (by
        have : 256 ^ (n + 1) = 256 ^ n * 256 := by ring
        rw [this] at hv
        exact Nat.div_lt_of_lt_mul (by omega))
      (by rw [length_bufByteStore]; omega)]
    omega

theorem writeBE_bufGet_lt (buf : List Nat) (off n v i : Nat) (h : i < off) :
    bufGet (writeBE buf off n v) i = bufGet buf i := by
  induction n generalizing buf off v with
  | zero => rfl
  | succ n ih =>
    rw [writeBE, ih _ _ _ (by omega)]
    exact bufGet_bufByteStore_ne _ _ _ _ (by omega)

theorem writeBE_length (buf : List Nat) (off n v : Nat) :
    (writeBE buf off n v).length = buf.length := by
  induction n generalizing buf off v with
  | zero => rfl
  | succ n ih => rw [writeBE, ih, length_bufByteStore]

theorem readBE_writeBE (buf : List Nat) (off n v : Nat)
    (hv : v < 256 ^ n) (hb : off + n ≤ buf.length) :
    readBE (writeBE buf off n v) off n = v := by
  induction n generalizing buf off v with
  | zero => simp [readBE, writeBE] at hv ⊢; omega
  | succ n ih =>
    rw [writeBE, readBE]
    rw [writeBE_bufGet_lt _ _ _ _ _ (by omega),
      bufGet_bufByteStore_self _ _ _ (by omega)]
    rw [ih _ _ _ (Nat.mod_lt _ (by positivity))
      (by rw [length_bufByteStore]; omega)]
    have hlt : v / 256 ^ n < 256 := by
      have : 256 ^ (n + 1) = 256 ^ n * 256 := by ring
      rw [this] at hv
      exact Nat.div_lt_of_lt_mul (by omega)
    rw [Nat.mod_eq_of_lt hlt]
    exact Nat.div_add_mod' v (256 ^ n)

theorem hostSetGet (old v msb lsb w : Nat) (hml : lsb ≤ msb) (hm31 : msb < 31)
    (hmw : msb < w) (hv : v < 2 ^ (msb - lsb + 1)) :
    (((old &&& cNotW w (cMask msb lsb)) ||| ((v <<< lsb) &&& (2 ^ (msb + 1) - 1))) &&&
      (2 ^ (msb + 1) - 1)) >>> lsb = v := by
  apply Nat.eq_of_testBit_eq
  intro i
  simp only [Nat.testBit_shiftRight, Nat.testBit_land, Nat.testBit_lor,
    Nat.testBit_shiftLeft, Nat.testBit_two_pow_sub_one, testBit_cMask _ _ _ hm31,
    cNotW, Nat.testBit_xor]
  by_cases hi : lsb + i ≤ msb
  · have h1 : lsb + i < msb + 1 := by omega
    simp [h1, show lsb ≤ lsb + i by omega, show lsb + i - lsb = i by omega, hi,
      show lsb + i < w by omega]
  · have h1 : ¬ (lsb + i < msb + 1) := by omega
    have hvb : v.testBit i = false :=
      Nat.testBit_lt_two_pow
        (lt_of_lt_of_le hv (Nat.pow_le_pow_right (by norm_num) (by omega)))
    simp [h1, hvb]

theorem hostSetLt (old v msb lsb w : Nat) (hm : msb < w) :
    (old &&& cNotW w (cMask msb lsb)) ||| ((v <<< lsb) &&& (2 ^ (msb + 1) - 1)) < 2 ^ w := by
  have hones : (2 : Nat) ^ (msb + 1) - 1 < 2 ^ w :=
    lt_of_lt_of_le (Nat.sub_lt (by positivity) one_pos)
      (Nat.pow_le_pow_right (by norm_num) (by omega))
  apply Nat.or_lt_two_pow
  · refine lt_of_le_of_lt Nat.and_le_right (Nat.xor_lt_two_pow ?_ ?_)
    · exact Nat.sub_lt (by positivity) one_pos
    · exact lt_of_le_of_lt Nat.and_le_left hones
  · exact lt_of_le_of_lt Nat.and_le_right hones

theorem get_set_le_field_bitrange (buf : List Nat) (off n msb lsb v : Nat)
    (hml : lsb ≤ msb) (hm31 : msb < 31) (hmn : msb < 8 * n)
    (hv : v < 2 ^ (msb - lsb + 1)) (hb : off + n ≤ buf.length) :
    get_le_field_bitrange (set_le_field_bitrange buf v off n msb lsb) off n msb lsb = v := by
  unfold get_le_field_bitrange set_le_field_bitrange
  rw [readLE_writeLE _ _ _ _ (by
      have := hostSetLt (readLE buf off n) v msb lsb (8 * n) hmn
      calc (readLE buf off n &&& cNotW (8 * n) (cMask msb lsb)) |||
            ((v <<< lsb) &&& (2 ^ (msb + 1) - 1)) < 2 ^ (8 * n) := this
        _ = 256 ^ n := by rw [show (256 : Nat) = 2 ^ 8 by norm_num, ← pow_mul]
    ) hb]
  exact hostSetGet _ _ _ _ _ hml hm31 hmn hv

theorem get_set_be_field_bitrange (buf : List Nat) (off n msb lsb v : Nat)
    (hml : lsb ≤ msb) (hm31 : msb < 31) (hmn : msb < 8 * n)
    (hv : v < 2 ^ (msb - lsb + 1)) (hb : off + n ≤ buf.length) :
    get_be_field_bitrange (set_be_field_bitrange buf v off n msb lsb) off n msb lsb = v := by
  unfold get_be_field_bitrange set_be_field_bitrange
  rw [readBE_writeBE _ _ _ _ (by
      have := hostSetLt (readBE buf off n) v msb lsb (8 * n) hmn
      calc (readBE buf off n &&& cNotW (8 * n) (cMask msb lsb)) |||
            ((v <<< lsb) &&& (2 ^ (msb + 1) - 1)) < 2 ^ (8 * n) := this
        _ = 256 ^ n := by rw [show (256 : Nat) = 2 ^ 8 by norm_num, ← pow_mul]
    ) hb]
  exact hostSetGet _ _ _ _ _ hml hm31 hmn hv

theorem bufStoreRange_bufGet_lt (bs : List Nat) (buf : List Nat) (off i : Nat) (h : i < off) :
    bufGet (bufStoreRange buf off bs) i = bufGet buf i := by
  induction bs generalizing buf off with
  | nil => rfl
  | cons b bs ih =>
    rw [bufStoreRange, ih _ _ (by omega)]
    exact bufGet_bufByteStore_ne _ _ _ _ (by omega)

theorem bufStoreRange_length (bs : List Nat) (buf : List Nat) (off : Nat) :
    (bufStoreRange buf off bs).length = buf.length := by
  induction bs generalizing buf off with
  | nil => rfl
  | cons b bs ih => rw [bufStoreRange, ih, length_bufByteStore]

theorem bufReadRange_bufStoreRange (bs : List Nat) (buf : List Nat) (off : Nat)
    (hb : off + bs.length ≤ buf.length) :
    bufReadRange (bufStoreRange buf off bs) off bs.length = bs := by
  induction bs generalizing buf off with
  | nil => rfl
  | cons b bs ih =>
    simp only [List.length_cons] at hb
    rw [bufStoreRange, List.length_cons, bufReadRange]
    rw [bufStoreRange_bufGet_lt _ _ _ _ (by omega),
      bufGet_bufByteStore_self _ _ _ (by omega)]
    rw [ih _ _ (by rw [length_bufByteStore]; omega)]

theorem splitFirst_single_append (t : Char) (v : List Char) (pad : Nat) (hv : t ∉ v) :
    splitFirst [t] (v ++ List.replicate pad t) = v := by
  induction v with
  | nil =>
    cases pad with
    | zero => rfl
    | succ n => simp [List.replicate, splitFirst, strStarts]
  | cons c cs ih =>
    have hne : t ≠ c := fun h => hv (h ▸ List.mem_cons_self c cs)
    simp only [List.cons_append, splitFirst, strStarts]
    rw [if_neg (by simp [hne])]
    rw [List.append_eq, ih (fun h => hv (List.mem_cons_of_mem c h))]

/-- Round trip of a string field through a character-wise codec
(`encode = map encChar`, `decode = map decChar`) with a single-character
terminator `t`: writing a value whose encoding fits in `size` bytes and
which contains no terminator character, then reading, returns the value. -/
theorem strField_roundtrip (encChar : Char → Nat) (decChar : Nat → Char)
    (off size : Nat) (t : Char) (buf : List Nat) (v : List Char)
    (hdec : ∀ c ∈ v, decChar (encChar c) = c)
    (hterm : decChar (t.toNat % 256) = t)
    (hnot : t ∉ v)
    (hlen : v.length ≤ size)
    (hb : off + size ≤ buf.length) :
    (strFieldSet (List.map encChar) off size [t] buf v).map
      (strFieldGet (List.map decChar) off size [t]) = some v := by
  have hvlen : (List.map encChar v).length = v.length := List.length_map _ _
  have htake : (List.map encChar v).take size = List.map encChar v :=
    List.take_of_length_le (by omega)
  unfold strFieldSet
  simp only [htake, hvlen]
  have hread : ∀ bs : List Nat, bs.length = size →
      strFieldGet (List.map decChar) off size [t] (bufStoreRange buf off bs) =
      splitFirst [t] (List.map decChar bs) := by
    intro bs hbs
    unfold strFieldGet
    rw [show size = bs.length from hbs.symm, bufReadRange_bufStoreRange _ _ _ (by omega)]
    simp
  by_cases hpad : size - v.length = 0
  · rw [if_pos hpad]
    rw [Option.map_some', hread _ (by omega)]
    have : List.map decChar (List.map encChar v) = v := by
      rw [List.map_map]
      exact List.map_congr_left (by intro a ha; simp [hdec a ha]) |>.trans (List.map_id v)
    rw [this]
    have := splitFirst_single_append t v 0 hnot
    simpa using this
  · rw [if_neg hpad]
    simp only [pyOrd, Option.map_some']
    rw [hread _ (by simp [List.length_replicate]; omega)]
    rw [List.map_append, List.map_map, List.map_replicate]
    have h1 : List.map (decChar ∘ encChar) v = v :=
      (List.map_congr_left (by intro a ha; simp [hdec a ha])).trans (List.map_id v)
    rw [h1, hterm, splitFirst_single_append t v _ hnot]

theorem find_min_of_sorted (key : α → Nat) (p : α → Bool) :
    ∀ l : List α, List.Sorted (keyLe key) l → ∀ x, l.find? p = some x →
      ∀ y ∈ l, p y → key x ≤ key y := by
  intro l
  induction l with
  | nil => intro _ x hx; simp at hx
  | cons a as ih =>
    intro hs x hx y hy hp
    rw [List.find?_cons] at hx
    by_cases hpa : p a
    · rw [hpa] at hx
      have hax : a = x := by simpa using hx
      subst hax
      rcases List.mem_cons.1 hy with rfl | hmem
      · exact Nat.le_refl _
      · exact (List.sorted_cons.1 hs).1 y hmem
    · rw [Bool.not_eq_true] at hpa
      rw [hpa] at hx
      rcases List.mem_cons.1 hy with rfl | hmem
      · rw [hp] at hpa; exact absurd hpa (by simp)
      · exact ih (List.sorted_cons.1 hs).2 x hx y hmem hp

theorem mem_foldr_append (mros : List (List String)) (k : String) :
    (k ∈ mros.foldr (fun fs acc => fs ++ acc) []) ↔ ∃ fs ∈ mros, k ∈ fs := by
  induction mros with
  | nil => simp
  | cons fs rest ih => simp [List.mem_append, ih]

theorem mem_le_minSizeOf : ∀ (ends : List Nat) (e : Nat), e ∈ ends → e ≤ minSizeOf ends := by
  intro ends
  induction ends with
  | nil => intro e he; simp at he
  | cons a l ih =>
    intro e he
    unfold minSizeOf at *
    rw [List.foldr_cons]
    rcases List.mem_cons.1 he with rfl | h
    · exact Nat.le_max_left _ _
    · exact Nat.le_trans (ih e h) (Nat.le_max_right _ _)

theorem bufByteStore_held : ∀ (buf : List Nat) (off : Nat),
    bufByteStore buf off (bufGet buf off) = buf := by
  intro buf
  induction buf with
  | nil => intro off; rfl
  | cons b bs ih =>
    intro off
    cases off with
    | zero => rfl
    | succ n =>
      have h := ih n
      simp only [bufByteStore, bufGet, List.getD_cons_succ, List.set_cons_succ] at h ⊢
      rw [h]

theorem applyOne_held (layout : List (String × Nat)) (buf : List Nat)
    (ini : List (String × Nat)) (H : ∀ kv ∈ ini, initialHeld layout buf kv = true) :
    ini.foldl (fun b' kv =>
      match layout.lookup kv.1 with
      | some off => set_field8 b' off kv.2
      | none => b') buf = buf := by
  induction ini with
  | nil => rfl
  | cons kv rest ih =>
    have hkv := H kv (List.mem_cons_self _ _)
    have hstep : (match layout.lookup kv.1 with
        | some off => set_field8 buf off kv.2
        | none => buf) = buf := by
      unfold initialHeld at hkv
      cases hl : layout.lookup kv.1 with
      | none => rfl
      | some off =>
        rw [hl] at hkv
        simp only [Bool.and_eq_true, decide_eq_true_eq, beq_iff_eq] at hkv
        show set_field8 buf off kv.2 = buf
        rw [← hkv.2]
        exact bufByteStore_held buf off
    rw [List.foldl_cons, hstep]
    exact ih (fun kv h => H kv (List.mem_cons_of_mem _ h))

theorem applyInitials_held (layout : List (String × Nat)) (buf : List Nat)
    (inits : List (List (String × Nat)))
    (H : ∀ ini ∈ inits, ∀ kv ∈ ini, initialHeld layout buf kv = true) :
    applyInitials layout buf inits = buf := by
  unfold applyInitials
  induction inits with
  | nil => rfl
  | cons ini rest ih =>
    rw [List.foldl_cons, applyOne_held layout buf ini (H ini (List.mem_cons_self _ _))]
    exact ih (fun i h => H i (List.mem_cons_of_mem _ h))

theorem get_bitrange_shift_form (buf : List Nat) (off msb lsb : Nat) (h : lsb ≤ msb) :
    get_field8_bitrange buf off msb lsb =
      (bufGet buf off >>> lsb) &&& (2 ^ (msb - lsb + 1) - 1) := by
  apply Nat.eq_of_testBit_eq
  intro i
  simp only [get_field8_bitrange, Nat.testBit_shiftRight, Nat.testBit_land,
    Nat.testBit_two_pow_sub_one]
  have hd : decide (lsb + i < msb + 1) = decide (i < msb - lsb + 1) :=
    decide_eq_decide.mpr (by omega)
  rw [hd]

theorem shiftLeft_and_ones_eq_and_cMask (v msb lsb : Nat) (hm : msb < 31) :
    (v <<< lsb) &&& (2 ^ (msb + 1) - 1) = (v <<< lsb) &&& cMask msb lsb := by
  apply Nat.eq_of_testBit_eq
  intro i
  simp only [Nat.testBit_land, Nat.testBit_shiftLeft, Nat.testBit_two_pow_sub_one,
    testBit_cMask _ _ _ hm]
  by_cases h1 : lsb ≤ i
  · by_cases h2 : i < msb + 1 <;> simp [h1, h2] <;> omega
  · simp [h1]

theorem set_bitrange_form (buf : List Nat) (off msb lsb v : Nat)
    (hml : lsb ≤ msb) (hm : msb < 8) (hb : bufGet buf off < 256) :
    set_field8_bitrange buf v off msb lsb =
      bufByteStore buf off
        ((bufGet buf off &&& cNot32 (cMask msb lsb)) ||| ((v <<< lsb) &&& cMask msb lsb)) := by
  unfold set_field8_bitrange
  rw [← shiftLeft_and_ones_eq_and_cMask v msb lsb (by omega)]
  congr 1
  apply Nat.mod_eq_of_lt
  apply Nat.or_lt_two_pow
  · calc bufGet buf off &&& cNot32 (cMask msb lsb) ≤ bufGet buf off := Nat.and_le_left
      _ < 2 ^ 8 := hb
  · calc (v <<< lsb) &&& (2 ^ (msb + 1) - 1) ≤ 2 ^ (msb + 1) - 1 := Nat.and_le_right
      _ < 2 ^ (msb + 1) := Nat.sub_lt (by positivity) one_pos
      _ ≤ 2 ^ 8 := Nat.pow_le_pow_right (by norm_num) (by omega)

theorem set_bitrange_zeroed (v : Nat) :
    (bufGet (set_field8_bitrange [0] v 0 6 1) 0).testBit 0 = false ∧
    (bufGet (set_field8_bitrange [0] v 0 6 1) 0).testBit 7 = false ∧
    ∀ i, 1 ≤ i → i ≤ 6 →
      (bufGet (set_field8_bitrange [0] v 0 6 1) 0).testBit i = v.testBit (i - 1) := by
  have hb : bufGet (set_field8_bitrange [0] v 0 6 1) 0 =
      ((0 &&& cNot32 (cMask 6 1)) ||| ((v <<< 1) &&& (2 ^ 7 - 1))) % 2 ^ 8 := by
    unfold set_field8_bitrange
    exact bufGet_bufByteStore_self _ _ _ (by decide)
  refine ⟨?_, ?_, ?_⟩
  · simp only [hb, Nat.testBit_mod_two_pow, Nat.testBit_lor, Nat.testBit_shiftLeft,
      Nat.testBit_land, Nat.zero_and, Nat.zero_or, Nat.testBit_two_pow_sub_one]
    simp
  · simp only [hb, Nat.testBit_mod_two_pow, Nat.testBit_lor, Nat.testBit_shiftLeft,
      Nat.testBit_land, Nat.zero_and, Nat.zero_or, Nat.testBit_two_pow_sub_one]
    simp
  · intro i h1 h6
    simp only [hb, Nat.testBit_mod_two_pow, Nat.testBit_lor, Nat.testBit_shiftLeft,
      Nat.testBit_land, Nat.zero_and, Nat.zero_or, Nat.testBit_two_pow_sub_one]
    simp [show i < 8 by omega, show 1 ≤ i from h1, show i < 7 by omega, ge_iff_le]

theorem isEnumOf_pair_swapped : isEnumOf ["second", "first"] [["first", "second"]] := by
  refine ⟨by decide, fun k => ?_⟩
  constructor
  · intro hk
    refine ⟨["first", "second"], by simp, ?_⟩
    rcases List.mem_cons.1 hk with rfl | hk2
    · simp
    · rcases List.mem_cons.1 hk2 with rfl | hk3
      · simp
      · simp at hk3
  · rintro ⟨fs, hfs, hk⟩
    rcases List.mem_cons.1 hfs with rfl | h0
    · rcases List.mem_cons.1 hk with rfl | hk2
      · simp
      · rcases List.mem_cons.1 hk2 with rfl | hk3
        · simp
        · simp at hk3
    · simp at h0

/-- Claim C1: decode walks the signature tree most-recently-registered
first, descending into the first candidate whose signature is satisfied,
and returns the last matched schema over the same buffer — concretely, for
schema A with descendant B under `{opcode = 1}` and B's descendant C under
`{fua = 1}`: a buffer with opcode 1 and fua 1 decoded from A resolves to C,
opcode 1 and fua 0 resolves to B, opcode 0 stays A and returns the original
instance itself, and of two candidates with the same satisfied signature
the more recently registered one wins. -/
theorem c1_decode_signature_walk :
    decodeFull registryABC classesABC layoutABC 1 [1, 1] 9 = (3, [1, 1], false) ∧
    decodeFull registryABC classesABC layoutABC 1 [1, 0] 9 = (2, [1, 0], false) ∧
    decodeFull registryABC classesABC layoutABC 1 [0, 0] 9 = (1, [0, 0], true) ∧
    decodeResolve registryXY [("a", 0)] 0 [1] 9 = 2 := by
  decide

/-- Claim C2, counterexample: with the registered generator table extended
by `bool ↦ BoolField` (via the public `register_field`), a `bool`-annotated
field selects `IntField` — the most GENERAL matching registration — while
the claimed most-derived-first order would select `BoolField`. -/
theorem c2_counterexample :
    selectFieldProp fieldMapEx boolTy = some "IntField" ∧
    selectFieldPropSpec fieldMapEx boolTy = some "BoolField" ∧
    selectFieldProp fieldMapEx boolTy ≠ selectFieldPropSpec fieldMapEx boolTy := by
  decide

/-- Claim C2, amended: the compiler selects, among registered pairs whose
type is a supertype of the annotation, one with MINIMAL method-resolution-
order length (least-derived first, ascending sort by `len(mro())`, ties in
registration order); it fails with the unregistered-field error exactly
when no registered type is a supertype of the annotation. -/
theorem c2_accessor_selection (fieldMap : List (PyType × String)) (atype : PyType) :
    (∀ g, selectFieldProp fieldMap atype = some g →
      ∃ p, p ∈ fieldMap ∧ p.2 = g ∧ pyIssubclass atype p.1 = true ∧
        ∀ q ∈ fieldMap, pyIssubclass atype q.1 = true →
          p.1.mro.length ≤ q.1.mro.length) ∧
    (selectFieldProp fieldMap atype = none ↔
      ∀ q ∈ fieldMap, pyIssubclass atype q.1 = false) := by
  have hperm := List.perm_insertionSort
    (keyLe (fun p : PyType × String => p.1.mro.length)) fieldMap
  constructor
  · intro g hg
    unfold selectFieldProp pySorted at hg
    cases hf : (List.insertionSort (keyLe (fun p : PyType × String => p.1.mro.length))
        fieldMap).find? (fun p => pyIssubclass atype p.1) with
    | none => rw [hf] at hg; simp at hg
    | some p =>
      rw [hf] at hg
      have hpg : p.2 = g := by simpa using hg
      have hps : pyIssubclass atype p.1 = true := by
        have h := List.find?_some hf
        simpa using h
      refine ⟨p, hperm.mem_iff.1 (List.mem_of_find?_eq_some hf), hpg, hps, ?_⟩
      intro q hq hsub
      exact find_min_of_sorted _ _ _
        (List.sorted_insertionSort _ _) p hf q (hperm.mem_iff.2 hq) hsub
  · constructor
    · intro hnone q hq
      cases hf : (List.insertionSort (keyLe (fun p : PyType × String => p.1.mro.length))
          fieldMap).find? (fun p => pyIssubclass atype p.1) with
      | some p =>
        unfold selectFieldProp pySorted at hnone
        rw [hf] at hnone
        exact absurd hnone (by simp)
      | none =>
        rw [List.find?_eq_none] at hf
        have h := hf q (hperm.mem_iff.2 hq)
        simpa using h
    · intro hall
      unfold selectFieldProp pySorted
      have hf : (List.insertionSort (keyLe (fun p : PyType × String => p.1.mro.length))
          fieldMap).find? (fun p => pyIssubclass atype p.1) = none := by
        rw [List.find?_eq_none]
        intro x hx
        rw [hall x (hperm.mem_iff.1 hx)]
        simp
      rw [hf]
      rfl

/-- Witness for the amended claim C2 at the concrete extended table. -/
theorem c2_accessor_selection_witness :
    ∃ p, p ∈ fieldMapEx ∧ p.2 = "IntField" ∧ pyIssubclass boolTy p.1 = true ∧
      ∀ q ∈ fieldMapEx, pyIssubclass boolTy q.1 = true →
        p.1.mro.length ≤ q.1.mro.length :=
  (c2_accessor_selection fieldMapEx boolTy).1 "IntField" (by decide)

/-- Claim C3, counterexample: schema A (id 1) is declared with zero literal
field values, yet its decode candidate collection is not a new empty root
holding only its own descendants — it is its parent's shared list, and
after sibling D (id 2, signature `{y = 2}`, not a descendant of A) is
declared, decoding from A can reach D. -/
theorem c3_counterexample :
    (classesGet classesAD 1).2 = [] ∧
    heapAt registryAD (refLookup registryAD 1) = [([("y", 2)], 2)] ∧
    1 ∉ mroIds classesAD 9 2 := by
  decide

/-- Claim C3, amended: a schema declared with at least one literal field
value is appended as a decode candidate to the candidate list its parent's
`_decode_map` resolves to and then starts a new, initially empty list of
its own; a schema with zero literal field values registers nothing and
starts no new list — it keeps sharing its parent's candidate list. -/
theorem c3_signature_registration (st : DecRegistry) (cid parent : Nat)
    (ini : List (String × Nat)) (hp : refLookup st parent < st.heap.length) :
    (ini = [] → (declareDecodable st cid parent ini).heap = st.heap ∧
      refLookup (declareDecodable st cid parent ini) cid = refLookup st parent) ∧
    (ini ≠ [] →
      heapAt (declareDecodable st cid parent ini) (refLookup st parent) =
        heapAt st (refLookup st parent) ++ [(ini, cid)] ∧
      refLookup (declareDecodable st cid parent ini) cid = st.heap.length ∧
      heapAt (declareDecodable st cid parent ini) st.heap.length = []) := by
  constructor
  · intro hini
    subst hini
    simp [declareDecodable, refLookup, List.lookup]
  · intro hini
    have hne : ini.isEmpty = false := by
      cases ini
      · exact absurd rfl hini
      · rfl
    unfold declareDecodable
    rw [hne]
    simp only [Bool.false_eq_true, if_false]
    refine ⟨?_, ?_, ?_⟩
    · unfold heapAt
      simp only [List.getD, List.get?_eq_getElem?]
      rw [List.getElem?_append]
      rw [if_pos (by simpa using hp)]
      rw [List.getElem?_set_eq hp]
      rfl
    · unfold refLookup
      simp [List.lookup]
    · unfold heapAt
      simp only [List.getD, List.get?_eq_getElem?]
      rw [List.getElem?_append]
      rw [if_neg (by simp)]
      simp

/-- Witness for the amended claim C3: declaring D (signature `{y = 2}`)
under the root while A shares the root's list. -/
theorem c3_signature_registration_witness :
    heapAt registryAD (refLookup (declareDecodable decRegistry0 1 0 []) 0) =
      heapAt (declareDecodable decRegistry0 1 0 [])
        (refLookup (declareDecodable decRegistry0 1 0 []) 0) ++ [([("y", 2)], 2)] ∧
    refLookup registryAD 2 = (declareDecodable decRegistry0 1 0 []).heap.length ∧
    heapAt registryAD (declareDecodable decRegistry0 1 0 []).heap.length = [] :=
  (c3_signature_registration (declareDecodable decRegistry0 1 0 []) 2 0 [("y", 2)]
    (by decide)).2 (by decide)

/-- Claim C4, counterexample: the round trip does not hold for every
string field and representable value — for a 4-byte field with an empty
terminator set, the value "xy" is representable (two ASCII bytes within
the field, containing no terminator character), yet writing it fails
outright (`ord(terminator)` raises `TypeError` while building the
padding), so write-then-read produces no value at all instead of
returning "xy". -/
theorem c4_counterexample :
    (strFieldSet asciiEnc 0 4 [] [0, 0, 0, 0] ['x', 'y']).map
      (strFieldGet asciiDec 0 4 []) = none ∧
    (strFieldSet asciiEnc 0 4 [] [0, 0, 0, 0] ['x', 'y']).map
      (strFieldGet asciiDec 0 4 []) ≠ some ['x', 'y'] := by
  decide

/-- Claim C4, amended: for every compiled integer field (full byte, byte
bit-range, multi-byte little or big endian, multi-byte bit-range with the
range below bit 31 — the region where the generated C mask arithmetic
`1 << (msb + 1)` is defined in `int`) and every value representable in
the field's bit width, and for every string field configured with a
single-character terminator, through a character-wise codec, for values
that fit the byte size and contain no terminator character, writing the
value through the setter and reading it back through the getter returns
the value; the round trip does not extend to empty or multi-character
terminator sets, where the setter fails instead of writing whenever
padding is needed. -/
theorem c4_field_roundtrip :
    (∀ (buf : List Nat) (off v : Nat), v < 256 → off < buf.length →
      get_field8 (set_field8 buf off v) off = v) ∧
    (∀ (buf : List Nat) (off msb lsb v : Nat), lsb ≤ msb → msb < 8 →
      v < 2 ^ (msb - lsb + 1) → off < buf.length →
      get_field8_bitrange (set_field8_bitrange buf v off msb lsb) off msb lsb = v) ∧
    (∀ (buf : List Nat) (off n v : Nat), v < 256 ^ n → off + n ≤ buf.length →
      readLE (writeLE buf off n v) off n = v) ∧
    (∀ (buf : List Nat) (off n v : Nat), v < 256 ^ n → off + n ≤ buf.length →
      readBE (writeBE buf off n v) off n = v) ∧
    (∀ (buf : List Nat) (off n msb lsb v : Nat), lsb ≤ msb → msb < 31 → msb < 8 * n →
      v < 2 ^ (msb - lsb + 1) → off + n ≤ buf.length →
      get_le_field_bitrange (set_le_field_bitrange buf v off n msb lsb) off n msb lsb = v) ∧
    (∀ (buf : List Nat) (off n msb lsb v : Nat), lsb ≤ msb → msb < 31 → msb < 8 * n →
      v < 2 ^ (msb - lsb + 1) → off + n ≤ buf.length →
      get_be_field_bitrange (set_be_field_bitrange buf v off n msb lsb) off n msb lsb = v) ∧
    (∀ (encChar : Char → Nat) (decChar : Nat → Char) (off size : Nat) (t : Char)
      (buf : List Nat) (v : List Char),
      (∀ c ∈ v, decChar (encChar c) = c) → decChar (t.toNat % 256) = t → t ∉ v →
      v.length ≤ size → off + size ≤ buf.length →
      (strFieldSet (List.map encChar) off size [t] buf v).map
        (strFieldGet (List.map decChar) off size [t]) = some v) :=
  ⟨fun buf off v _ h => get_set_field8 buf off v h,
   fun buf off msb lsb v h1 h2 h3 h4 => get_set_field8_bitrange buf off msb lsb v h1 h2 h3 h4,
   fun buf off n v h1 h2 => readLE_writeLE buf off n v h1 h2,
   fun buf off n v h1 h2 => readBE_writeBE buf off n v h1 h2,
   fun buf off n msb lsb v h1 h2 h3 h4 h5 =>
     get_set_le_field_bitrange buf off n msb lsb v h1 h2 h3 h4 h5,
   fun buf off n msb lsb v h1 h2 h3 h4 h5 =>
     get_set_be_field_bitrange buf off n msb lsb v h1 h2 h3 h4 h5,
   fun encChar decChar off size t buf v h1 h2 h3 h4 h5 =>
     strField_roundtrip encChar decChar off size t buf v h1 h2 h3 h4 h5⟩

/-- Witness for the amended claim C4 at concrete fields and values. -/
theorem c4_field_roundtrip_witness :
    get_field8 (set_field8 [0] 0 200) 0 = 200 ∧
    get_field8_bitrange (set_field8_bitrange [255] 3 0 6 1) 0 6 1 = 3 ∧
    readLE (writeLE [9, 9] 0 2 1027) 0 2 = 1027 ∧
    readBE (writeBE [9, 9] 0 2 1027) 0 2 = 1027 ∧
    get_le_field_bitrange (set_le_field_bitrange [255, 255] 5 0 2 10 3) 0 2 10 3 = 5 ∧
    get_be_field_bitrange (set_be_field_bitrange [255, 255] 5 0 2 10 3) 0 2 10 3 = 5 ∧
    (strFieldSet (List.map Char.toNat) 0 4 ['\x00'] [7, 7, 7, 7] ['x', 'y']).map
      (strFieldGet (List.map (fun b => if b < 128 then Char.ofNat b else '�')) 0 4 ['\x00']) =
      some ['x', 'y'] :=
  ⟨c4_field_roundtrip.1 [0] 0 200 (by decide) (by decide),
   c4_field_roundtrip.2.1 [255] 0 6 1 3 (by decide) (by decide) (by decide) (by decide),
   c4_field_roundtrip.2.2.1 [9, 9] 0 2 1027 (by decide) (by decide),
   c4_field_roundtrip.2.2.2.1 [9, 9] 0 2 1027 (by decide) (by decide),
   c4_field_roundtrip.2.2.2.2.1 [255, 255] 0 2 10 3 5
     (by decide) (by decide) (by decide) (by decide) (by decide),
   c4_field_roundtrip.2.2.2.2.2.1 [255, 255] 0 2 10 3 5
     (by decide) (by decide) (by decide) (by decide) (by decide),
   c4_field_roundtrip.2.2.2.2.2.2 Char.toNat
     (fun b => if b < 128 then Char.ofNat b else '�') 0 4 '\x00' [7, 7, 7, 7] ['x', 'y']
     (by decide) (by decide) (by decide) (by decide) (by decide)⟩

/-- Claim C5: a width-8 bit-range getter returns
`(byte >> lsb) & ((1 << (msb - lsb + 1)) - 1)`; the setter replaces the
byte with `(old & ~mask) | ((value << lsb) & mask)` where
`mask = ((1 << (msb + 1)) - 1) & ~((1 << lsb) - 1)`; writing V to
bit-range (6, 1) of a zeroed byte sets bits 1..6 from V while bits 0 and 7
stay 0. -/
theorem c5_bitrange_formulas :
    (∀ (buf : List Nat) (off msb lsb : Nat), lsb ≤ msb →
      get_field8_bitrange buf off msb lsb =
        (bufGet buf off >>> lsb) &&& (2 ^ (msb - lsb + 1) - 1)) ∧
    (∀ (buf : List Nat) (off msb lsb v : Nat), lsb ≤ msb → msb < 8 →
      bufGet buf off < 256 →
      set_field8_bitrange buf v off msb lsb =
        bufByteStore buf off
          ((bufGet buf off &&& cNot32 (cMask msb lsb)) ||| ((v <<< lsb) &&& cMask msb lsb))) ∧
    (∀ v : Nat,
      (bufGet (set_field8_bitrange [0] v 0 6 1) 0).testBit 0 = false ∧
      (bufGet (set_field8_bitrange [0] v 0 6 1) 0).testBit 7 = false ∧
      ∀ i, 1 ≤ i → i ≤ 6 →
        (bufGet (set_field8_bitrange [0] v 0 6 1) 0).testBit i = v.testBit (i - 1)) :=
  ⟨fun buf off msb lsb h => get_bitrange_shift_form buf off msb lsb h,
   fun buf off msb lsb v h1 h2 h3 => set_bitrange_form buf off msb lsb v h1 h2 h3,
   set_bitrange_zeroed⟩

/-- Witness for claim C5 at a concrete byte. -/
theorem c5_bitrange_formulas_witness :
    get_field8_bitrange [182] 0 6 1 = (bufGet [182] 0 >>> 1) &&& (2 ^ (6 - 1 + 1) - 1) ∧
    set_field8_bitrange [182] 3 0 6 1 =
      bufByteStore [182] 0
        ((bufGet [182] 0 &&& cNot32 (cMask 6 1)) ||| ((3 <<< 1) &&& cMask 6 1)) ∧
    (bufGet (set_field8_bitrange [0] 99 0 6 1) 0).testBit 0 = false :=
  ⟨c5_bitrange_formulas.1 [182] 0 6 1 (by decide),
   c5_bitrange_formulas.2.1 [182] 0 6 1 3 (by decide) (by decide) (by decide),
   (c5_bitrange_formulas.2.2 99).1⟩

/-- Claim C6, counterexample: a schema declared with `size=0` over a field
ending at byte 2 compiles to size 2 — neither failing (as the claim's
"fails when the declared size is smaller than the computed minimum"
demands, 0 < 2) nor taking the declared size 0. -/
theorem c6_counterexample :
    createFieldsSize 0 (some 0) (minSizeOf [2]) = some 2 ∧
    createFieldsSize 0 (some 0) (minSizeOf [2]) ≠ none ∧
    createFieldsSize 0 (some 0) (minSizeOf [2]) ≠ some 0 := by
  decide

/-- Claim C6, amended: a NONZERO declared size is taken as the schema size
and compilation fails when it is below the computed minimum of the class's
own fields; a declared size of zero is treated like no declaration and
yields the computed minimum; with no declaration a direct subclass gets
the computed minimum, while a nonzero inherited size is kept (failing when
below the minimum); every field end fits in the compiled size. -/
theorem c6_schema_size :
    (∀ (ends : List Nat) (s : Nat), s ≠ 0 →
      createFieldsSize 0 (some s) (minSizeOf ends) =
        if s < minSizeOf ends then none else some s) ∧
    (∀ ends : List Nat, createFieldsSize 0 none (minSizeOf ends) = some (minSizeOf ends)) ∧
    (∀ (inh : Nat) (ends : List Nat),
      createFieldsSize inh (some 0) (minSizeOf ends) = some (minSizeOf ends)) ∧
    (∀ (inh : Nat) (ends : List Nat), inh ≠ 0 →
      createFieldsSize inh none (minSizeOf ends) =
        if inh < minSizeOf ends then none else some inh) ∧
    (∀ (inh : Nat) (decl : Option Nat) (ends : List Nat) (r : Nat),
      createFieldsSize inh decl (minSizeOf ends) = some r → ∀ e ∈ ends, e ≤ r) := by
  refine ⟨?_, ?_, ?_, ?_, ?_⟩
  · intro ends s hs
    unfold createFieldsSize
    simp [hs]
  · intro ends
    unfold createFieldsSize
    simp
  · intro inh ends
    unfold createFieldsSize
    simp
  · intro inh ends hinh
    unfold createFieldsSize
    simp [hinh]
  · intro inh decl ends r h
    unfold createFieldsSize at h
    have hr : minSizeOf ends ≤ r := by
      cases decl with
      | none =>
        by_cases h0 : inh = 0
        · simp [h0] at h
          omega
        · by_cases hlt : inh < minSizeOf ends
          · simp [h0, hlt] at h
          · simp [h0, hlt] at h
            omega
      | some s =>
        by_cases h0 : s = 0
        · simp [h0] at h
          omega
        · by_cases hlt : s < minSizeOf ends
          · simp [h0, hlt] at h
          · simp [h0, hlt] at h
            omega
    intro e he
    exact Nat.le_trans (mem_le_minSizeOf ends e he) hr

/-- Witness for the amended claim C6 at concrete declarations. -/
theorem c6_schema_size_witness :
    createFieldsSize 0 (some 5) (minSizeOf [2]) =
      (if 5 < minSizeOf [2] then none else some 5) ∧
    (∀ e ∈ [2, 7], e ≤ 7) :=
  ⟨c6_schema_size.1 [2] 5 (by decide),
   c6_schema_size.2.2.2.2 0 none [2, 7] 7 (by decide)⟩

/-- Claim C7 (code bug): the string setter evaluates `ord(terminator)` on
the whole terminator string whenever padding is needed, so with an empty
terminator set (or one of several characters) and a value shorter than the
field it raises `TypeError` instead of padding (with 0, per the claim, or
with the first terminator character, per the field's own docstring); when
the encoded value already fills the field no padding is produced and no
failure occurs. -/
theorem c7_setter_failure :
    strFieldSet asciiEnc 0 4 [] [0, 0, 0, 0] ['x', 'y'] = none ∧
    strFieldSet asciiEnc 0 4 ['a', 'b'] [0, 0, 0, 0] ['x', 'y'] = none ∧
    strFieldSet asciiEnc 0 4 [] [0, 0, 0, 0] ['w', 'x', 'y', 'z'] =
      some [119, 120, 121, 122] := by
  decide

/-- Claim C8 (code bug): the string getter truncates with
`ret.split(terminator, 1)`, treating the terminator as one contiguous
substring, not as a set of characters: with terminator "ab" a field
decoding to "xb" is returned whole, while the claim (and the field's own
docstring) requires truncation at the first member character, giving "x". -/
theorem c8_terminator_substring :
    strFieldGet asciiDec 0 2 ['a', 'b'] [120, 98] = ['x', 'b'] ∧
    truncAtTerminatorSet ['a', 'b'] (asciiDec [120, 98]) = ['x'] ∧
    strFieldGet asciiDec 0 2 ['a', 'b'] [120, 98] ≠
      truncAtTerminatorSet ['a', 'b'] (asciiDec [120, 98]) := by
  decide

/-- Claim C9, counterexample: the rendered field order is the iteration
order of the Python set `_fields_`, not the declaration order — for the
two-field schema, the swapped enumeration is an equally valid set
iteration and produces a different rendering. -/
theorem c9_counterexample :
    isEnumOf ["second", "first"] [["first", "second"]] ∧
    pyRepr "S" ["second", "first"] (fun k => k) ≠
      pyRepr "S" ["first", "second"] (fun k => k) :=
  ⟨isEnumOf_pair_swapped, by decide⟩

/-- Claim C9, amended: the textual rendering is
`TypeName(field1=val1, field2=val2, ...)` and lists every field of the
schema including inherited ones, each exactly once, in an unspecified
set-iteration order (the component list is a permutation of the collected
field set's components). -/
theorem c9_repr_fields (tyName : String) (mros : List (List String))
    (iter : List String) (vals : String → String) (h : isEnumOf iter mros) :
    pyRepr tyName iter vals =
      tyName ++ "(" ++ joinComma (iter.map (reprComponent vals)) ++ ")" ∧
    iter.Perm (collectFields mros) := by
  refine ⟨rfl, ?_⟩
  obtain ⟨hnd, hmem⟩ := h
  refine (List.perm_ext_iff_of_nodup hnd (List.nodup_dedup _)).2 ?_
  intro k
  rw [List.mem_dedup, mem_foldr_append]
  exact hmem k

/-- Witness for the amended claim C9 at the swapped enumeration. -/
theorem c9_repr_fields_witness :
    pyRepr "S" ["second", "first"] (fun k => k) =
      "S" ++ "(" ++ joinComma (["second", "first"].map (reprComponent (fun k => k))) ++ ")" ∧
    List.Perm ["second", "first"] (collectFields [["first", "second"]]) :=
  c9_repr_fields "S" [["first", "second"]] ["second", "first"] (fun k => k)
    isEnumOf_pair_swapped

/-- Claim C10, counterexample: decode is not byte-preserving in general —
decoding an instance of B (signature `{opcode = 1}`) whose buffer holds
opcode 5 and fua 1 resolves to C and the construction of C rewrites
`opcode` with B's literal 1, changing the shared buffer from [5, 1] to
[1, 1]. -/
theorem c10_counterexample :
    decodeFull registryBC classesBC layoutABC 1 [5, 1] 9 = (2, [1, 1], false) ∧
    (2, ([1, 1] : List Nat), false) ≠ (2, ([5, 1] : List Nat), false) := by
  decide

/-- Claim C10, amended: constructing over an existing buffer applies every
class-level literal initial value of the constructed type's ancestry,
ancestor to descendant, by writing through the field setters into the
shared buffer; hence decode — which constructs the resolved type with
`ref=self.buffer` — leaves the buffer bytes unchanged whenever the buffer
already holds every initial value of the resolved type's ancestry (as it
does when decode starts at the signature forest's root), and may rewrite
them otherwise. -/
theorem c10_decode_frame (st : DecRegistry) (classes : List (Nat × List (String × Nat)))
    (layout : List (String × Nat)) (cid : Nat) (buf : List Nat) (fuel : Nat)
    (H : ∀ c ∈ mroIds classes fuel (decodeResolve st layout cid buf fuel),
      ∀ kv ∈ (classesGet classes c).2, initialHeld layout buf kv = true) :
    (decodeFull st classes layout cid buf fuel).2.1 = buf := by
  unfold decodeFull
  by_cases h : decodeResolve st layout cid buf fuel = cid
  · simp [h]
  · simp only [h, if_neg h]
    apply applyInitials_held
    intro ini hini kv hkv
    rw [List.mem_map] at hini
    obtain ⟨c, hc, rfl⟩ := hini
    rw [List.mem_reverse] at hc
    exact H c hc kv hkv

/-- Witness for the amended claim C10: decoding from the root A leaves the
buffer unchanged. -/
theorem c10_decode_frame_witness :
    (decodeFull registryABC classesABC layoutABC 1 [1, 1] 9).2.1 = [1, 1] :=
  c10_decode_frame registryABC classesABC layoutABC 1 [1, 1] 9 (by decide)
